import Mathlib

/-!
Shallow embedding of the `imageTools` repository (memeRenamer.py and
clean-backgrounds.py), together with theorems settling the frozen claims
about its natural-language specification.

External collaborators (NLTK tokenizer/tagger/stemmer/corpus, the
`SpellChecker` dictionary, `difflib.SequenceMatcher.ratio`, pytesseract OCR,
the filesystem) are modelled as parameters: arbitrary functions supplied to
the pipeline, exactly as the spec treats them (black-box resources loaded
once and shared read-only).  String/char operations are modelled at the
ASCII level (the scripts process OCR'd English text); Python floats are
modelled as exact rationals.
-/

namespace ImageTools

/-- Observable side effects of the scripts, in program order: console prints,
`os.rename` invocations, appends to the raw-text log, and the `open(_, 'w')`
truncation used to initialise the log.  OS-level failures of these operations
are reported and swallowed by the scripts and are not modelled. -/
inductive Effect where
  | print (s : String)
  | osRename (src dst : String)
  | appendFile (file text : String)
  | truncateFile (file : String)
deriving DecidableEq, Repr

/-- The process-wide linguistic resources of memeRenamer.py
(`nltk.word_tokenize`, `nltk.pos_tag`, the `SpellChecker` membership test and
best-correction lookup, `PorterStemmer.stem`, `SequenceMatcher(None, a, b).ratio()`,
and the Brown corpus word list), abstracted as arbitrary functions. -/
structure Resources where
  word_tokenize : String → List String
  pos_tag : List String → List (String × String)
  spell_contains : String → Bool
  spell_correction : String → Option String
  stem : String → String
  ratio : String → String → ℚ
  brown_words : List String

/-- Python character-class model: `string.punctuation` membership
(the 32 ASCII punctuation characters, codes 33-47, 58-64, 91-96, 123-126). -/
def pyIsPunctChar (c : Char) : Bool :=
  (33 ≤ c.toNat && c.toNat ≤ 47) || (58 ≤ c.toNat && c.toNat ≤ 64) ||
  (91 ≤ c.toNat && c.toNat ≤ 96) || (123 ≤ c.toNat && c.toNat ≤ 126)

/-- ASCII model of Python `str.isupper` at the character level (codes 65-90). -/
def pyIsUpperChar (c : Char) : Bool := 65 ≤ c.toNat && c.toNat ≤ 90

/-- ASCII model of Python lowercase letters (codes 97-122). -/
def pyIsLowerChar (c : Char) : Bool := 97 ≤ c.toNat && c.toNat ≤ 122

/-- ASCII model of Python `str.isalpha` at the character level. -/
def pyIsAlphaChar (c : Char) : Bool := pyIsUpperChar c || pyIsLowerChar c

/-- ASCII model of `str.lower` at the character level. -/
def pyToLowerChar (c : Char) : Char :=
  if pyIsUpperChar c then Char.ofNat (c.toNat + 32) else c

/-- Python `str.isalpha`: non-empty and every character alphabetic. -/
def pyIsAlpha (s : String) : Bool :=
  !s.toList.isEmpty && s.toList.all pyIsAlphaChar

/-- Python `str.lower` (ASCII model). -/
def pyLower (s : String) : String := String.mk (s.toList.map pyToLowerChar)

/-- Python `str.strip(string.punctuation)`: drop punctuation characters from
both ends of the string. -/
def pyStripPunct (s : String) : String :=
  String.mk (((s.toList.dropWhile pyIsPunctChar).reverse.dropWhile pyIsPunctChar).reverse)

/-- Python `str.strip()`: drop whitespace from both ends. -/
def pyStripWS (s : String) : String :=
  String.mk (((s.toList.dropWhile Char.isWhitespace).reverse.dropWhile Char.isWhitespace).reverse)

/-- Helper for `pySplit`: accumulate the current run of non-whitespace
characters (in reverse) and cut at whitespace. -/
def pySplitAux : List Char → List Char → List String
  | [], acc => if acc.isEmpty then [] else [String.mk acc.reverse]
  | c :: cs, acc =>
    if Char.isWhitespace c then
      if acc.isEmpty then pySplitAux cs []
      else String.mk acc.reverse :: pySplitAux cs []
    else pySplitAux cs (c :: acc)

/-- Python `str.split()` (no argument): split on whitespace runs, discarding
empty fields. -/
def pySplit (s : String) : List String := pySplitAux s.toList []

/-- `text.replace('\n', ' ')` as used on OCR output (single-character
pattern and replacement, hence a per-character map). -/
def replace_newlines (s : String) : String :=
  String.mk (s.toList.map (fun c => if c = '\n' then ' ' else c))

/-- memeRenamer.py lines 65-85, body of the per-token correction loop of
`correct_spelling`: proper nouns (`NNP`/`NNPS` tags) are kept verbatim;
otherwise a word already in the dictionary is kept, and a word outside the
dictionary is replaced by `spell.correction(word)`, falling back to the word
itself when the correction is `None`. -/
def correct_word (spell_contains : String → Bool)
    (spell_correction : String → Option String) (word tag : String) : String :=
  if tag = "NNP" ∨ tag = "NNPS" then word
  else if spell_contains word then word
  else (spell_correction word).getD word

/-- memeRenamer.py `correct_spelling` (lines 45-88): tokenize, POS-tag,
correct each token via `correct_word`, join with single spaces.  (The
verbose-mode prints report corrections only and perform no mutation; the
function is called with default `verbose=False, test=False` from
`process_image`.) -/
def correct_spelling (res : Resources) (input_text : String) : String :=
  let words := res.word_tokenize input_text
  let tagged_words := res.pos_tag words
  String.intercalate " "
    (tagged_words.map (fun wt => correct_word res.spell_contains res.spell_correction wt.1 wt.2))

/-- The rejection test of `filter_similar_words` (memeRenamer.py lines
103-118) for one candidate `word` against the already-accepted list
`filtered_words`: length at least 10, exact membership, equal stems, or a
`SequenceMatcher` ratio (on the words or on their stems) at or above the
threshold. -/
def too_similar (stem : String → String) (ratio : String → String → ℚ)
    (similarity_threshold : ℚ) (filtered_words : List String) (word : String) : Bool :=
  if word.length ≥ 10 || filtered_words.contains word then true
  else
    filtered_words.any (fun other_word =>
      stem word = stem other_word ||
      ratio word other_word ≥ similarity_threshold ||
      ratio (stem word) (stem other_word) ≥ similarity_threshold)

/-- The accumulating loop of `filter_similar_words`: fold over the input,
appending each word that is not `too_similar` to the words accepted so far. -/
def filter_similar_aux (stem : String → String) (ratio : String → String → ℚ)
    (similarity_threshold : ℚ) : List String → List String → List String
  | filtered_words, [] => filtered_words
  | filtered_words, word :: words =>
    if too_similar stem ratio similarity_threshold filtered_words word then
      filter_similar_aux stem ratio similarity_threshold filtered_words words
    else
      filter_similar_aux stem ratio similarity_threshold (filtered_words ++ [word]) words

/-- Default `similarity_threshold=0.80` of `filter_similar_words`. -/
def similarity_threshold : ℚ := 80 / 100

/-- memeRenamer.py `filter_similar_words` (lines 90-123): greedy
order-preserving near-duplicate removal starting from an empty accepted
list. -/
def filter_similar_words (stem : String → String) (ratio : String → String → ℚ)
    (words : List String) (thr : ℚ) : List String :=
  filter_similar_aux stem ratio thr [] words

/-- memeRenamer.py `sort_words_by_freq` (lines 125-139): Python's stable
`sorted` with key `freq_dist.get(word, 0)` — ascending by frequency, absent
words keyed 0. -/
def sort_words_by_freq (words : List String) (freq_dist : String → Option ℕ) : List String :=
  words.mergeSort (fun a b => decide ((freq_dist a).getD 0 ≤ (freq_dist b).getD 0))

/-- memeRenamer.py `generate_brown_freq_dist` (lines 141-151): the
`FreqDist` of the Brown corpus word list maps each occurring word to its
occurrence count and contains no entry for absent words. -/
def generate_brown_freq_dist (brown_words : List String) : String → Option ℕ :=
  fun word => if brown_words.count word = 0 then none else some (brown_words.count word)

/-- memeRenamer.py line 269, the token filter of `process_image`:
`[word.lower().strip(string.punctuation) for word in reordered_text
  if word.isalpha() and len(word) >= 5]`. -/
def token_filter (reordered_text : List String) : List String :=
  (reordered_text.filter (fun word => pyIsAlpha word && word.length ≥ 5)).map
    (fun word => pyStripPunct (pyLower word))

/-- `os.path.join(directory, filename)` for a directory and a bare filename,
as used throughout memeRenamer.py. -/
def pathJoin (directory filename : String) : String := directory ++ "/" ++ filename

/-- `os.path.basename`: the part of a path after the last separator. -/
def basename (p : String) : String :=
  String.mk ((p.toList.reverse.takeWhile (· ≠ '/')).reverse)

/-- The extension component of `os.path.splitext`: everything from the last
dot of the name on, where the leading run of dots does not begin an
extension. -/
def splitext_ext (s : String) : String :=
  let cs := s.toList
  let rest := cs.drop (cs.takeWhile (· = '.')).length
  if rest.contains '.' then
    String.mk ('.' :: (rest.reverse.takeWhile (· ≠ '.')).reverse)
  else ""

/-- `filename[0] == '.'`, the dot-file test of both loops of `main`. -/
def startsWithDot (s : String) : Bool :=
  match s.toList with
  | '.' :: _ => true
  | _ => false

/-- memeRenamer.py `get_file_list` (lines 175-199): classify the regular
files of the directory listing into image files (extension, lowercased, in
`{.gif, .png, .jpg, .jpeg}`) and non-image files, preserving listing order.
`is_file` abstracts `os.path.isfile` on the joined path. -/
def image_extensions : List String := [".gif", ".png", ".jpg", ".jpeg"]

def get_file_list (listing : List String) (is_file : String → Bool) :
    List String × List String :=
  let files := listing.filter is_file
  (files.filter (fun f => image_extensions.contains (pyLower (splitext_ext f))),
   files.filter (fun f => !image_extensions.contains (pyLower (splitext_ext f))))

/-- memeRenamer.py `append_to_file` (lines 201-219): append the text plus a
newline; with a `None` filename the `open` call raises and the handler only
prints.  (OS-level write failures likewise only print; not modelled.) -/
def append_to_file (filename : Option String) (text_to_append : String) : List Effect :=
  match filename with
  | some f => [.appendFile f (text_to_append ++ "\n")]
  | none => [.print "An error occurred while trying to open or write to the file 'None'."]

/-- Per-image environment of `process_image`: whether the preliminary
existence/size/access check passes, and the OCR outcome (`none` models an
exception from `Image.open`/`pytesseract`, `some raw` the extracted text). -/
structure ImageEnv where
  file_ok : Bool
  ocr : Option String

/-- memeRenamer.py `process_image` (lines 221-272), returning the word list
together with the side effects in program order.  The Python function
returns the empty string `""` on its three early-exit paths and a word list
otherwise; both the empty string and the empty list are falsy and of length
< 2 in `main`, so the early exits are modelled by the empty list. -/
def process_image (res : Resources) (image_file : String) (env : ImageEnv)
    (verbose test : Bool) (outfile : Option String) : List String × List Effect :=
  if !env.file_ok then
    ([], [.print ("File " ++ image_file ++ " cannot be processed.")])
  else
    match env.ocr with
    | none => ([], [.print ("ERROR: Unexpected error processing image " ++ image_file)])
    | some raw =>
      let text := replace_newlines raw
      if pyStripWS text = "" then
        ([], [.print ("No text found in image: " ++ image_file)])
      else
        let append_fx := if !test then append_to_file outfile (pyStripWS text) else []
        let corrected_text := pySplit (correct_spelling res text)
        let brown_freq_dist := generate_brown_freq_dist res.brown_words
        let reordered_text := sort_words_by_freq corrected_text brown_freq_dist
        let verbose_fx :=
          if verbose || test then
            [.print ("Raw OCRed Text from " ++ image_file ++ ":"), .print text, .print ""]
          else []
        let words := token_filter reordered_text
        (filter_similar_words res.stem res.ratio words similarity_threshold,
         append_fx ++ verbose_fx)

/-- memeRenamer.py `main`, lines 383-386: the rename value for an image file
is the MD5 digest plus extension when the word list is falsy or shorter than
2, and otherwise the first five words joined by single spaces plus the
extension. -/
def rename_value (words : List String) (md5_hex extension : String) : String :=
  if words.isEmpty || words.length < 2 then md5_hex ++ extension
  else String.intercalate " " (words.take 5) ++ extension

/-- memeRenamer.py `rename_file` (lines 290-316).  Note the control flow of
the source: the `return` for the `original_path == new_path` case is nested
inside the `if verbose or test_mode:` block, so with both flags clear the
function falls through and still invokes `os.rename` on the identical
paths. -/
def rename_file (filename rename directory : String) (test_mode verbose : Bool) :
    List Effect :=
  let original_path := pathJoin directory filename
  let new_path := pathJoin directory rename
  if original_path = new_path ∧ (verbose ∨ test_mode) then
    [.print ("No need to rename '" ++ filename ++ "', already done.")]
  else
    (if verbose ∨ test_mode then
       [.print ("Renaming '" ++ filename ++ "' to '" ++ basename new_path ++ "'")]
     else []) ++
    (if !test_mode then [.osRename original_path new_path] else [])

/-- The parsed command line of memeRenamer.py. -/
structure Args where
  directory : String
  test : Bool
  verbose : Bool
  output_text : Option String

/-- The environment `main` runs against: the startup directory check, the
writability probe of the output-text file, the directory listing with its
regular-file predicate, the MD5 digest of each path, the per-image OCR
environment, and the shared linguistic resources. -/
structure MainEnv where
  dir_ok : Bool
  out_writable : Bool
  listing : List String
  is_file : String → Bool
  md5 : String → String
  image_env : String → ImageEnv
  res : Resources

/-- One entry of `file_infos` in `main`. -/
structure FileInfo where
  filename : String
  words : List String
  rename : String
deriving DecidableEq, Repr

/-- The f-string `f"Planning to rename {filename} -> {rename}."` of both
planning loops of `main`. -/
def plan_msg (filename rename : String) : String :=
  "Planning to rename " ++ filename ++ " -> " ++ rename ++ "."

/-- The non-image planning loop of `main` (lines 357-371): skip dot files,
plan a rename to MD5 digest plus extension, print the plan in verbose or
test mode. -/
def plan_non_image (args : Args) (env : MainEnv) (not_image_list : List String) :
    List FileInfo × List Effect :=
  let files := not_image_list.filter (fun f => !startsWithDot f)
  (files.map (fun f =>
     { filename := f, words := [],
       rename := env.md5 (pathJoin args.directory f) ++ splitext_ext f }),
   files.flatMap (fun f =>
     if args.verbose || args.test then
       [.print (plan_msg f (env.md5 (pathJoin args.directory f) ++ splitext_ext f))]
     else []))

/-- The image planning loop of `main` (lines 374-396): skip dot files, run
`process_image`, compute the rename value, print the plan (with a trailing
newline in the f-string) in verbose or test mode. -/
def plan_image (args : Args) (env : MainEnv) (image_list : List String) :
    List FileInfo × List Effect :=
  let files := image_list.filter (fun f => !startsWithDot f)
  (files.map (fun f =>
     let words := (process_image env.res f (env.image_env f) args.verbose args.test
        args.output_text).1
     { filename := f, words := words,
       rename := rename_value words (env.md5 (pathJoin args.directory f)) (splitext_ext f) }),
   files.flatMap (fun f =>
     let pi := process_image env.res f (env.image_env f) args.verbose args.test args.output_text
     pi.2 ++
     (if args.verbose || args.test then
        [.print (plan_msg f (rename_value pi.1 (env.md5 (pathJoin args.directory f))
          (splitext_ext f)) ++ "\n")]
      else [])))

/-- memeRenamer.py `main` (lines 318-408) as its trace of effects, in
program order: the startup directory check, the output-text initialisation
(including the `open(args.output_text, 'w')` truncation), the two planning
loops, and the rename pass.  The wall-clock timing prints are display-only
and elided. -/
def main_effects (args : Args) (env : MainEnv) : List Effect :=
  if !env.dir_ok then [.print "Directory does not exist or cannot be accessed."]
  else
    let out_fx :=
      match args.output_text with
      | none => []
      | some out =>
        (if !env.out_writable then
           [.print ("Warning: The file '" ++ out ++ "' does not exist or is not writable.")]
         else if args.verbose || args.test then
           [.print ("The file '" ++ out ++ "' is writable.")]
         else []) ++
        [.print ("Initializing the file '" ++ out ++ "'."), .truncateFile out]
    let lists := get_file_list env.listing env.is_file
    let count_fx :=
      if args.verbose || args.test then
        [.print ("Found " ++ toString lists.1.length ++ " image files and " ++
          toString lists.2.length ++ " non-image files in '" ++ args.directory ++ "'.")]
      else []
    let ni := plan_non_image args env lists.2
    let im := plan_image args env lists.1
    let file_infos := ni.1 ++ im.1
    let rename_fx := file_infos.flatMap (fun fi =>
      if fi.rename ≠ "" then
        rename_file fi.filename fi.rename args.directory args.test args.verbose
      else [])
    out_fx ++ count_fx ++
    [.print "Planning rename of non-image files to MD5 hashes..."] ++ ni.2 ++
    [.print "Planning rename of image files, if no image text can be found images will be renamed to MD5 hash..."] ++
    im.2 ++ [.print "Renaming files where needed..."] ++ rename_fx

/-- The spec's rejection rule (§4.3 Variant A), transcribed from the spec's
words: a token is rejected iff (a) its length is at least 10, (b) it equals
an already-accepted token exactly, (c) its stem equals an accepted token's
stem, or (d) the similarity ratio between it and an accepted token, or
between their stems, meets or exceeds the threshold. -/
@[reducible]
def spec_rejected (stem : String → String) (ratio : String → String → ℚ)
    (thr : ℚ) (accepted : List String) (word : String) : Prop :=
  10 ≤ word.length ∨ word ∈ accepted ∨
  (∃ a ∈ accepted, stem word = stem a) ∨
  (∃ a ∈ accepted, thr ≤ ratio word a ∨ thr ≤ ratio (stem word) (stem a))

/-- The spec's greedy deduplication (§4.3), transcribed from the spec's
words: scan the input in order, rejecting each token iff `spec_rejected`
holds of it against the tokens accepted so far. -/
def spec_filter (stem : String → String) (ratio : String → String → ℚ)
    (thr : ℚ) : List String → List String → List String
  | accepted, [] => accepted
  | accepted, word :: words =>
    if spec_rejected stem ratio thr accepted word then
      spec_filter stem ratio thr accepted words
    else
      spec_filter stem ratio thr (accepted ++ [word]) words

/-- Degenerate concrete resources (identity stemmer, zero similarity, empty
corpus, empty tokenizer), used to instantiate witnesses. -/
def trivialRes : Resources :=
  { word_tokenize := fun _ => []
    pos_tag := fun _ => []
    spell_contains := fun _ => false
    spell_correction := fun _ => none
    stem := id
    ratio := fun _ _ => 0
    brown_words := [] }

/-- `Effect`s that mutate the filesystem (everything except console prints). -/
def Effect.isMutation : Effect → Bool
  | .print _ => false
  | .osRename _ _ => true
  | .appendFile _ _ => true
  | .truncateFile _ => true

/-- `Effect`s that are `os.rename` invocations. -/
def Effect.isRename : Effect → Bool
  | .osRename _ _ => true
  | _ => false

/-- `Effect`s that append to the given raw-text log file. -/
def Effect.isAppend : Effect → Bool
  | .appendFile _ _ => true
  | _ => false

end ImageTools

namespace CleanBackgrounds

/-- Python `round` on an exact rational: round to the nearest integer,
ties to the even integer (banker's rounding). -/
def pyRound (q : ℚ) : ℤ :=
  if q - ⌊q⌋ = 1 / 2 then (if 2 ∣ ⌊q⌋ then ⌊q⌋ else ⌊q⌋ + 1)
  else ⌊q + 1 / 2⌋

/-- `params['mp']`, the minimum megapixels, of clean-backgrounds.py. -/
def params_mp : ℤ := 6

/-- `params['ar']`, the minimum width/height aspect ratio, of
clean-backgrounds.py (`4/3`, modelled exactly). -/
def params_ar : ℚ := 4 / 3

/-- clean-backgrounds.py `checkImage` (lines 34-54): `none` models an
`Image.open` failure, in which case the `except` branch returns the initial
`result = True`; otherwise the image is bad (`False`) exactly when its
rounded megapixel count is below 6 or its aspect ratio is below 4/3. -/
def checkImage (dims : Option (ℕ × ℕ)) : Bool :=
  match dims with
  | none => true
  | some (w, h) =>
    let mp := pyRound ((w * h : ℚ) / 1000000)
    let ar : ℚ := (w : ℚ) / (h : ℚ)
    if mp < params_mp ∨ ar < params_ar then false else true

/-- clean-backgrounds.py `main` (lines 79-88): the files deleted are exactly
the scanned files failing `checkImage`; `dims` gives each file's dimensions
or `none` when it cannot be opened as an image. -/
def delete_list (fileList : List String) (dims : String → Option (ℕ × ℕ)) :
    List String :=
  fileList.filter (fun f => !checkImage (dims f))

/-- Concrete dimension oracle for witnesses: a sub-megapixel image, a good
8-megapixel 2:1 image, and a file that cannot be opened as an image. -/
def witnessDims : String → Option (ℕ × ℕ) := fun f =>
  if f = "small.png" then some (800, 600)
  else if f = "good.png" then some (4000, 2000)
  else none

end CleanBackgrounds

section Claims

open ImageTools

/-- C1: for every processed image file, if the token sequence remaining
after filtering has fewer than 2 tokens (including the empty sequence), the
chosen filename is the file's content hash followed by the original
extension; otherwise it is the first `min 5 n` tokens joined by single
spaces followed by the original extension, so the label never contains more
than 5 tokens. -/
theorem C1_label_selection (words : List String) (md5_hex extension : String) :
    (words.length < 2 →
      rename_value words md5_hex extension = md5_hex ++ extension) ∧
    (2 ≤ words.length →
      rename_value words md5_hex extension =
        String.intercalate " " (words.take (min 5 words.length)) ++ extension) ∧
    (words.take 5).length ≤ 5 := by
  refine ⟨fun h => ?_, fun h => ?_, ?_⟩
  · simp [rename_value, h]
  · have hne : words.isEmpty = false := by
      cases words with
      | nil => simp at h
      | cons a l => rfl
    have htk : words.take (min 5 words.length) = words.take 5 := by
      rcases Nat.le_total 5 words.length with h5 | h5
      · rw [Nat.min_eq_left h5]
      · rw [Nat.min_eq_right h5, List.take_of_length_le (le_refl _),
          List.take_of_length_le h5]
    simp [rename_value, hne, Nat.not_lt.mpr h, htk]
  · simp [List.length_take]

/-- Witness for C1 at a concrete six-token list. -/
theorem C1_label_selection_witness :
    2 ≤ (["alpha", "bravo", "march", "delta", "eagle", "fable"] : List String).length ∧
    rename_value ["alpha", "bravo", "march", "delta", "eagle", "fable"]
        "0123456789abcdef0123456789abcdef" ".png" =
      String.intercalate " "
        ((["alpha", "bravo", "march", "delta", "eagle", "fable"] : List String).take
          (min 5 (["alpha", "bravo", "march", "delta", "eagle", "fable"] : List String).length)) ++
        ".png" :=
  ⟨by decide, (C1_label_selection _ _ _).2.1 (by decide)⟩

/-- C4: a token tagged `NNP` or `NNPS` is kept verbatim; otherwise a token
in the dictionary is kept, and a token outside it becomes the dictionary's
best correction, falling back to the original token when no correction
exists. -/
theorem C4_spelling_correction (spell_contains : String → Bool)
    (spell_correction : String → Option String) (word tag : String) :
    ((tag = "NNP" ∨ tag = "NNPS") →
      correct_word spell_contains spell_correction word tag = word) ∧
    (¬(tag = "NNP" ∨ tag = "NNPS") → spell_contains word = true →
      correct_word spell_contains spell_correction word tag = word) ∧
    (¬(tag = "NNP" ∨ tag = "NNPS") → spell_contains word = false →
      correct_word spell_contains spell_correction word tag =
        (spell_correction word).getD word) ∧
    (¬(tag = "NNP" ∨ tag = "NNPS") → spell_contains word = false →
      spell_correction word = none →
      correct_word spell_contains spell_correction word tag = word) := by
  refine ⟨fun h => ?_, fun h hc => ?_, fun h hc => ?_, fun h hc hn => ?_⟩
  · simp [correct_word, h]
  · simp [correct_word, h, hc]
  · simp [correct_word, h, hc]
  · simp [correct_word, h, hc, hn]

/-- Witness for C4: a proper noun outside the dictionary is preserved, a
dictionary word is kept, a misspelling is corrected, and an uncorrectable
token falls back to itself. -/
theorem C4_spelling_correction_witness :
    correct_word (fun _ => false) (fun _ => some "world") "Pepsi" "NNP" = "Pepsi" ∧
    correct_word (fun w => w == "hello") (fun _ => none) "hello" "NN" = "hello" ∧
    correct_word (fun _ => false) (fun _ => some "world") "wrld" "NN" = "world" ∧
    correct_word (fun _ => false) (fun _ => none) "zzqq" "NN" = "zzqq" :=
  ⟨(C4_spelling_correction _ _ _ _).1 (Or.inl rfl),
   (C4_spelling_correction _ _ _ _).2.1 (by decide) (by decide),
   ((C4_spelling_correction _ _ _ _).2.2.1 (by decide) rfl).trans rfl,
   (C4_spelling_correction _ _ _ _).2.2.2 (by decide) rfl rfl⟩

/-- C5: an OCR exception (`ocr = none`) and extracted text that is empty
after trimming both yield the empty token sequence from `process_image`,
and the empty sequence selects the content-hash-plus-extension fallback
name in `main`. -/
theorem C5_ocr_failure_fallback (res : Resources) (image_file : String)
    (fileOk : Bool) (raw : String) (verbose test : Bool) (outfile : Option String)
    (md5_hex extension : String) :
    (process_image res image_file ⟨fileOk, none⟩ verbose test outfile).1 = [] ∧
    (pyStripWS (replace_newlines raw) = "" →
      (process_image res image_file ⟨fileOk, some raw⟩ verbose test outfile).1 = []) ∧
    rename_value [] md5_hex extension = md5_hex ++ extension := by
  refine ⟨?_, fun h => ?_, by simp [rename_value]⟩
  · unfold process_image
    cases fileOk <;> simp
  · unfold process_image
    cases fileOk <;> simp [h]

/-- Witness for C5 at whitespace-only OCR output. -/
theorem C5_ocr_failure_fallback_witness :
    pyStripWS (replace_newlines " \n ") = "" ∧
    (process_image trivialRes "img.png" ⟨true, some " \n "⟩ false false none).1 = [] ∧
    (process_image trivialRes "img.png" ⟨true, none⟩ false false none).1 = [] ∧
    rename_value [] "0123456789abcdef0123456789abcdef" ".png" =
      "0123456789abcdef0123456789abcdef.png" := by
  have h := C5_ocr_failure_fallback trivialRes "img.png" true " \n " false false none
    "0123456789abcdef0123456789abcdef" ".png"
  exact ⟨by decide, h.2.1 (by decide), h.1, h.2.2⟩

/-- C7: at the failing input (source path equals destination path, verbose
and test both clear) `rename_file` falls through its nested early return and
still invokes `os.rename` on the identical paths, contradicting the claim
that no rename operation is performed; with verbose or test set it only
reports the no-op and performs nothing, as the claim states. -/
theorem C7_rename_collision_bug :
    rename_file "a.txt" "a.txt" "d" false false = [.osRename "d/a.txt" "d/a.txt"] ∧
    rename_file "a.txt" "a.txt" "d" false true =
      [.print "No need to rename 'a.txt', already done."] ∧
    rename_file "a.txt" "a.txt" "d" true false =
      [.print "No need to rename 'a.txt', already done."] := by
  decide

/-- Helper for C8: running `filter_similar_aux` from any accepted prefix
`acc` yields `acc ++ t` for a suffix `t` that is a fixed point: re-running
the loop from `acc` on `t` accepts every element of `t` again. -/
theorem filter_similar_aux_idem (stem : String → String)
    (ratio : String → String → ℚ) (thr : ℚ) (words : List String) :
    ∀ acc : List String, ∃ t,
      filter_similar_aux stem ratio thr acc words = acc ++ t ∧
      filter_similar_aux stem ratio thr acc t = acc ++ t := by
  induction words with
  | nil => exact fun acc => ⟨[], by simp [filter_similar_aux], by simp [filter_similar_aux]⟩
  | cons w ws ih =>
    intro acc
    by_cases hsim : too_similar stem ratio thr acc w = true
    · obtain ⟨t, h1, h2⟩ := ih acc
      exact ⟨t, by simp [filter_similar_aux, hsim, h1], h2⟩
    · obtain ⟨t, h1, h2⟩ := ih (acc ++ [w])
      refine ⟨w :: t, ?_, ?_⟩
      · simp only [filter_similar_aux, hsim, if_neg, Bool.not_eq_true] at h1 ⊢
        simp [hsim, h1]
      · simp only [filter_similar_aux]
        simp [hsim, h2]

/-- C8: the similarity filter is idempotent — applying it to its own output
(for any stemmer, ratio function and threshold, in particular the script's
0.80 default) returns that output unchanged. -/
theorem C8_filter_idempotent (stem : String → String)
    (ratio : String → String → ℚ) (thr : ℚ) (words : List String) :
    filter_similar_words stem ratio (filter_similar_words stem ratio words thr) thr =
      filter_similar_words stem ratio words thr := by
  obtain ⟨t, h1, h2⟩ := filter_similar_aux_idem stem ratio thr words []
  unfold filter_similar_words
  rw [h1]
  simpa using h2

/-- C10: a scanned file is deleted iff it opens as an image and its rounded
megapixel count is below 6 or its width/height aspect ratio is below 4/3;
a file that cannot be opened as an image is never deleted. -/
theorem C10_background_cleaning (fileList : List String)
    (dims : String → Option (ℕ × ℕ)) (f : String) :
    (f ∈ CleanBackgrounds.delete_list fileList dims ↔
      f ∈ fileList ∧ ∃ w h, dims f = some (w, h) ∧
        (CleanBackgrounds.pyRound ((w * h : ℚ) / 1000000) < 6 ∨
          (w : ℚ) / (h : ℚ) < 4 / 3)) ∧
    (dims f = none → f ∉ CleanBackgrounds.delete_list fileList dims) := by
  have hiff : ∀ d : Option (ℕ × ℕ), (!CleanBackgrounds.checkImage d) = true ↔
      ∃ w h, d = some (w, h) ∧
        (CleanBackgrounds.pyRound ((w * h : ℚ) / 1000000) < 6 ∨
          (w : ℚ) / (h : ℚ) < 4 / 3) := by
    intro d
    cases d with
    | none => simp [CleanBackgrounds.checkImage]
    | some p =>
      obtain ⟨w, h⟩ := p
      simp only [CleanBackgrounds.checkImage, CleanBackgrounds.params_mp,
        CleanBackgrounds.params_ar, Option.some.injEq, Prod.mk.injEq]
      by_cases hc : CleanBackgrounds.pyRound ((w * h : ℚ) / 1000000) < 6 ∨
          (w : ℚ) / (h : ℚ) < 4 / 3
      · rw [if_pos hc]
        simpa using ⟨w, h, ⟨rfl, rfl⟩, hc⟩
      · rw [if_neg hc]
        simp only [Bool.not_true, Bool.false_eq_true, false_iff]
        rintro ⟨w', h', ⟨rfl, rfl⟩, hlt⟩
        exact hc hlt
  constructor
  · rw [CleanBackgrounds.delete_list, List.mem_filter]
    exact and_congr_right fun _ => hiff (dims f)
  · intro hn hmem
    rw [CleanBackgrounds.delete_list, List.mem_filter] at hmem
    simp [CleanBackgrounds.checkImage, hn] at hmem

/-- Witness for C10: the sub-megapixel image is deleted, the unopenable file
is kept. -/
theorem C10_background_cleaning_witness :
    "small.png" ∈ CleanBackgrounds.delete_list ["small.png", "good.png", "broken.dat"]
      CleanBackgrounds.witnessDims ∧
    "broken.dat" ∉ CleanBackgrounds.delete_list ["small.png", "good.png", "broken.dat"]
      CleanBackgrounds.witnessDims :=
  ⟨(C10_background_cleaning _ _ _).1.mpr
      ⟨by decide, 800, 600, by decide,
        Or.inl (by norm_num [CleanBackgrounds.pyRound])⟩,
   (C10_background_cleaning _ _ _).2 (by decide)⟩

/-- Helper for C2: the source's rejection test agrees with the spec's
rejection rule. -/
theorem too_similar_iff_spec_rejected (stem : String → String)
    (ratio : String → String → ℚ) (thr : ℚ) (acc : List String) (w : String) :
    too_similar stem ratio thr acc w = true ↔ spec_rejected stem ratio thr acc w := by
  have hcontains : acc.contains w = true ↔ w ∈ acc := List.elem_iff
  unfold too_similar
  by_cases hb : (w.length ≥ 10 || acc.contains w) = true
  · rw [if_pos hb]
    simp only [true_iff]
    rw [Bool.or_eq_true] at hb
    rcases hb with hl | hm
    · exact Or.inl (by simpa using hl)
    · exact Or.inr (Or.inl (hcontains.mp hm))
  · rw [if_neg hb]
    rw [Bool.or_eq_true, not_or] at hb
    obtain ⟨hb1, hb2⟩ := hb
    rw [List.any_eq_true]
    constructor
    · rintro ⟨o, ho, hor⟩
      rw [Bool.or_eq_true, Bool.or_eq_true] at hor
      rcases hor with (hs | hr) | hr2
      · exact Or.inr (Or.inr (Or.inl ⟨o, ho, by simpa using hs⟩))
      · exact Or.inr (Or.inr (Or.inr ⟨o, ho, Or.inl (by simpa using hr)⟩))
      · exact Or.inr (Or.inr (Or.inr ⟨o, ho, Or.inr (by simpa using hr2)⟩))
    · rintro (h10 | hmem | ⟨o, ho, hs⟩ | ⟨o, ho, hr⟩)
      · exact absurd h10 (by simpa using hb1)
      · exact absurd (hcontains.mpr hmem) hb2
      · exact ⟨o, ho, by simp [hs]⟩
      · rcases hr with hr | hr <;> exact ⟨o, ho, by simp [hr]⟩

/-- Helper for C2: the accumulating loop returns a sublist of the accepted
prefix followed by the remaining input. -/
theorem filter_similar_aux_sublist (stem : String → String)
    (ratio : String → String → ℚ) (thr : ℚ) (words : List String) :
    ∀ acc : List String,
      (filter_similar_aux stem ratio thr acc words).Sublist (acc ++ words) := by
  induction words with
  | nil => intro acc; simp [filter_similar_aux]
  | cons w ws ih =>
    intro acc
    unfold filter_similar_aux
    by_cases hsim : too_similar stem ratio thr acc w = true
    · rw [if_pos hsim]
      exact (ih acc).trans (List.Sublist.append_left (List.sublist_cons_self w ws) acc)
    · rw [if_neg hsim]
      simpa using ih (acc ++ [w])

/-- Helper for C2: the source's loop computes the spec's greedy filter. -/
theorem filter_similar_aux_eq_spec (stem : String → String)
    (ratio : String → String → ℚ) (thr : ℚ) (words : List String) :
    ∀ acc : List String,
      filter_similar_aux stem ratio thr acc words = spec_filter stem ratio thr acc words := by
  induction words with
  | nil => intro acc; rfl
  | cons w ws ih =>
    intro acc
    unfold filter_similar_aux spec_filter
    by_cases hs : spec_rejected stem ratio thr acc w
    · rw [if_pos ((too_similar_iff_spec_rejected stem ratio thr acc w).mpr hs),
        if_pos hs, ih]
    · rw [if_neg (fun hc => hs ((too_similar_iff_spec_rejected stem ratio thr acc w).mp hc)),
        if_neg hs, ih]

/-- C2: at the script's 0.80 threshold, the similarity filter's output is an
order-preserving subsequence of its input and equals the spec's greedy
rule — each token rejected iff its length is at least 10, it equals an
accepted token, its stem equals an accepted token's stem, or a similarity
ratio (token against token, or stem against stem) meets the threshold. -/
theorem C2_similarity_filter (stem : String → String)
    (ratio : String → String → ℚ) (words : List String) :
    (filter_similar_words stem ratio words similarity_threshold).Sublist words ∧
    filter_similar_words stem ratio words similarity_threshold =
      spec_filter stem ratio similarity_threshold [] words := by
  constructor
  · simpa using filter_similar_aux_sublist stem ratio similarity_threshold words []
  · exact filter_similar_aux_eq_spec stem ratio similarity_threshold words []

/-- C3: the Frequency Ranker returns a permutation of its input that is
non-decreasing in frequency (absent words keyed 0), and the words of any
fixed frequency keep their relative input order (stability). -/
theorem C3_frequency_ranker (words : List String) (freq_dist : String → Option ℕ) :
    (sort_words_by_freq words freq_dist).Perm words ∧
    (sort_words_by_freq words freq_dist).Pairwise
      (fun a b => (freq_dist a).getD 0 ≤ (freq_dist b).getD 0) ∧
    ∀ c : ℕ,
      (sort_words_by_freq words freq_dist).filter
          (fun w => (freq_dist w).getD 0 == c) =
        words.filter (fun w => (freq_dist w).getD 0 == c) := by
  have htrans : ∀ a b c : String,
      decide ((freq_dist a).getD 0 ≤ (freq_dist b).getD 0) = true →
      decide ((freq_dist b).getD 0 ≤ (freq_dist c).getD 0) = true →
      decide ((freq_dist a).getD 0 ≤ (freq_dist c).getD 0) = true := by
    intro a b c hab hbc
    simp only [decide_eq_true_eq] at hab hbc ⊢
    omega
  have htotal : ∀ a b : String,
      (decide ((freq_dist a).getD 0 ≤ (freq_dist b).getD 0) ||
       decide ((freq_dist b).getD 0 ≤ (freq_dist a).getD 0)) = true := by
    intro a b
    simp only [Bool.or_eq_true, decide_eq_true_eq]
    omega
  refine ⟨List.mergeSort_perm words _, ?_, ?_⟩
  · exact (List.sorted_mergeSort htrans htotal words).imp (by simp)
  · intro c
    set p : String → Bool := fun w => (freq_dist w).getD 0 == c with hp
    have hpair : (words.filter p).Pairwise
        (fun a b => decide ((freq_dist a).getD 0 ≤ (freq_dist b).getD 0) = true) := by
      apply List.pairwise_of_forall_mem_list
      intro a ha b hb
      have ha' := (List.mem_filter.mp ha).2
      have hb' := (List.mem_filter.mp hb).2
      simp only [hp, beq_iff_eq] at ha' hb'
      simp [ha', hb']
    have hsub : List.Sublist (words.filter p) (sort_words_by_freq words freq_dist) :=
      List.sublist_mergeSort htrans htotal hpair (List.filter_sublist words)
    have hself : (words.filter p).filter p = words.filter p := by
      rw [List.filter_eq_self]
      intro a ha
      exact (List.mem_filter.mp ha).2
    have hsub2 : List.Sublist (words.filter p)
        ((sort_words_by_freq words freq_dist).filter p) := by
      have := hsub.filter p
      rwa [hself] at this
    have hlen : ((sort_words_by_freq words freq_dist).filter p).length =
        (words.filter p).length :=
      ((List.mergeSort_perm words _).filter p).length_eq
    exact (hsub2.eq_of_length hlen.symm).symm

/-- Helper for C9: a valid scalar-value codepoint round-trips through
`Char.ofNat`. -/
theorem char_toNat_ofNat (n : ℕ) (h : n < 55296) : (Char.ofNat n).toNat = n := by
  unfold Char.ofNat
  rw [dif_pos (Or.inl h)]
  rfl

/-- Helper for C9: lowering an alphabetic character yields a lowercase
letter. -/
theorem pyToLowerChar_lower (c : Char) (h : pyIsAlphaChar c = true) :
    pyIsLowerChar (pyToLowerChar c) = true := by
  unfold pyToLowerChar
  by_cases hu : pyIsUpperChar c = true
  · rw [if_pos hu]
    unfold pyIsUpperChar at hu
    simp only [Bool.and_eq_true, decide_eq_true_eq] at hu
    unfold pyIsLowerChar
    simp only [Bool.and_eq_true, decide_eq_true_eq]
    rw [char_toNat_ofNat (c.toNat + 32) (by omega)]
    omega
  · rw [if_neg hu]
    unfold pyIsAlphaChar at h
    rcases Bool.or_eq_true_iff.mp h with h' | h'
    · exact absurd h' hu
    · exact h'

/-- Helper for C9: lowercase letters are not punctuation. -/
theorem pyIsLowerChar_not_punct (c : Char) (h : pyIsLowerChar c = true) :
    pyIsPunctChar c = false := by
  unfold pyIsLowerChar at h
  simp only [Bool.and_eq_true, decide_eq_true_eq] at h
  rcases Bool.eq_false_or_eq_true (pyIsPunctChar c) with ht | hf
  · exfalso
    unfold pyIsPunctChar at ht
    simp only [Bool.or_eq_true, Bool.and_eq_true, decide_eq_true_eq] at ht
    omega
  · exact hf

/-- Helper for C9: dropping punctuation from a punctuation-free list is the
identity. -/
theorem dropWhile_punct_eq_self (l : List Char)
    (h : ∀ c ∈ l, pyIsPunctChar c = false) :
    l.dropWhile pyIsPunctChar = l := by
  cases l with
  | nil => rfl
  | cons a t =>
    rw [List.dropWhile_cons, if_neg]
    simp [h a (List.mem_cons_self a t)]

/-- C9: every token that enters the Similarity Filter is at least 5
characters long, purely alphabetic, entirely lowercase, and a fixed point of
punctuation stripping. -/
theorem C9_token_invariants (reordered_text : List String) (w : String)
    (hw : w ∈ token_filter reordered_text) :
    5 ≤ w.length ∧ w.toList.all pyIsAlphaChar = true ∧
    w.toList.all pyIsLowerChar = true ∧ pyStripPunct w = w := by
  unfold token_filter at hw
  rw [List.mem_map] at hw
  obtain ⟨x, hx, rfl⟩ := hw
  rw [List.mem_filter] at hx
  obtain ⟨-, hcond⟩ := hx
  simp only [Bool.and_eq_true, decide_eq_true_eq] at hcond
  obtain ⟨halpha, hlen⟩ := hcond
  unfold pyIsAlpha at halpha
  simp only [Bool.and_eq_true, List.all_eq_true] at halpha
  have hlow : ∀ c ∈ (pyLower x).toList, pyIsLowerChar c = true := by
    intro c hc
    have hc' : c ∈ x.toList.map pyToLowerChar := hc
    rw [List.mem_map] at hc'
    obtain ⟨d, hd, rfl⟩ := hc'
    exact pyToLowerChar_lower d (halpha.2 d hd)
  have hnp : ∀ c ∈ (pyLower x).toList, pyIsPunctChar c = false :=
    fun c hc => pyIsLowerChar_not_punct c (hlow c hc)
  have hstrip : pyStripPunct (pyLower x) = pyLower x := by
    unfold pyStripPunct
    rw [dropWhile_punct_eq_self _ hnp,
      dropWhile_punct_eq_self _ (fun c hc => hnp c (List.mem_reverse.mp hc)),
      List.reverse_reverse]
    rfl
  rw [hstrip]
  refine ⟨?_, ?_, ?_, hstrip⟩
  · have hlm : (pyLower x).length = x.length := by
      show (x.toList.map pyToLowerChar).length = x.toList.length
      simp
    omega
  · rw [List.all_eq_true]
    intro c hc
    unfold pyIsAlphaChar
    rw [Bool.or_eq_true_iff]
    exact Or.inr (hlow c hc)
  · rw [List.all_eq_true]
    exact hlow

/-- Witness for C9: the token list produced from `["Hello", "Hi!"]` contains
`"hello"`, which satisfies all four invariants. -/
theorem C9_token_invariants_witness :
    "hello" ∈ token_filter ["Hello", "Hi!"] ∧
    (5 ≤ "hello".length ∧ "hello".toList.all pyIsAlphaChar = true ∧
      "hello".toList.all pyIsLowerChar = true ∧ pyStripPunct "hello" = "hello") :=
  ⟨by decide, C9_token_invariants ["Hello", "Hi!"] "hello" (by decide)⟩

/-- C6 counterexample: with `--test` set and an output-text path supplied,
`main` still truncates (initialises) that file — `open(args.output_text, 'w')`
runs regardless of test mode — so the run performs a filesystem mutation,
contradicting the claim that no filesystem mutation is performed. -/
theorem C6_counterexample :
    (main_effects ⟨"d", true, false, some "out.txt"⟩
        ⟨true, true, [], fun _ => false, fun _ => "", fun _ => ⟨false, none⟩,
          trivialRes⟩).filter Effect.isMutation = [Effect.truncateFile "out.txt"] := by
  decide

/-- Helper for C6: in test mode, `process_image` emits console prints only
(in particular it never appends to the raw-text log). -/
theorem process_image_print_only (res : Resources) (f : String) (ienv : ImageEnv)
    (verbose : Bool) (outfile : Option String) (e : Effect)
    (he : e ∈ (process_image res f ienv verbose true outfile).2) :
    ∃ s, e = Effect.print s := by
  obtain ⟨fo, ocr⟩ := ienv
  cases fo with
  | false =>
    simp only [process_image, Bool.not_false, if_pos] at he
    simp at he
    exact ⟨_, he⟩
  | true =>
    cases ocr with
    | none =>
      simp [process_image] at he
      exact ⟨_, he⟩
    | some raw =>
      by_cases ht : pyStripWS (replace_newlines raw) = ""
      · simp [process_image, ht] at he
        exact ⟨_, he⟩
      · simp [process_image, ht] at he
        rcases he with h | h | h
        · exact ⟨_, h⟩
        · exact ⟨_, h⟩
        · exact ⟨_, h⟩

/-- Helper for C6: in test mode, `rename_file` emits console prints only. -/
theorem rename_file_print_only (fn rn dir : String) (verbose : Bool) (e : Effect)
    (he : e ∈ rename_file fn rn dir true verbose) : ∃ s, e = Effect.print s := by
  simp only [rename_file] at he
  split at he
  · simp at he
    exact ⟨_, he⟩
  · simp at he
    exact ⟨_, he⟩

/-- Helper for C6: in test mode, every effect of `main` is a console print
or the output-text truncation — never a rename and never an append. -/
theorem main_effects_test_shapes (args : Args) (env : MainEnv)
    (h : args.test = true) (e : Effect) (he : e ∈ main_effects args env) :
    (∃ s, e = Effect.print s) ∨ (∃ f, e = Effect.truncateFile f) := by
  obtain ⟨dir, test, verbose, out⟩ := args
  subst h
  by_cases hd : env.dir_ok = true
  · simp only [main_effects, hd, Bool.not_true] at he
    simp only [Bool.false_eq_true, if_false] at he
    rcases List.mem_append.mp he with he | he
    swap
    · -- the rename pass
      rcases List.mem_flatMap.mp he with ⟨fi, -, he⟩
      split at he
      · exact Or.inl (rename_file_print_only _ _ _ _ _ he)
      · simp at he
    rcases List.mem_append.mp he with he | he
    swap
    · simp at he
      exact Or.inl ⟨_, he⟩
    rcases List.mem_append.mp he with he | he
    swap
    · -- the image planning loop
      rcases List.mem_flatMap.mp he with ⟨f, -, he⟩
      rcases List.mem_append.mp he with he | he
      · exact Or.inl (process_image_print_only _ _ _ _ _ _ he)
      · simp at he
        exact Or.inl ⟨_, he⟩
    rcases List.mem_append.mp he with he | he
    swap
    · simp at he
      exact Or.inl ⟨_, he⟩
    rcases List.mem_append.mp he with he | he
    swap
    · -- the non-image planning loop
      rcases List.mem_flatMap.mp he with ⟨f, -, he⟩
      simp at he
      exact Or.inl ⟨_, he⟩
    rcases List.mem_append.mp he with he | he
    swap
    · simp at he
      exact Or.inl ⟨_, he⟩
    rcases List.mem_append.mp he with he | he
    swap
    · -- the file-count print
      split at he
      · simp at he
        exact Or.inl ⟨_, he⟩
      · simp at he
    · -- the output-text initialisation
      cases out with
      | none => simp at he
      | some o =>
        rcases List.mem_append.mp he with he | he
        · split at he
          · simp at he
            exact Or.inl ⟨_, he⟩
          · split at he
            · simp at he
              exact Or.inl ⟨_, he⟩
            · simp at he
        · simp at he
          rcases he with he | he
          · exact Or.inl ⟨_, he⟩
          · exact Or.inr ⟨_, he⟩
  · have hd' : env.dir_ok = false := by
      cases henv : env.dir_ok
      · rfl
      · exact absurd henv hd
    simp [main_effects, hd'] at he
    exact Or.inl ⟨_, he⟩

/-- C6 (amended): with the test flag set, no rename is ever invoked and
nothing is ever appended to the raw-text log, while a "Planning to rename"
message is still printed for every processed file; however, when an
output-text path is supplied, `main` still truncates that file even in test
mode (see the counterexample). -/
theorem C6_dry_run (args : Args) (env : MainEnv) (h : args.test = true) :
    (∀ e ∈ main_effects args env, e.isRename = false ∧ e.isAppend = false) ∧
    (env.dir_ok = true →
      (∀ f ∈ (get_file_list env.listing env.is_file).2.filter
          (fun f => !startsWithDot f),
        ∃ r, Effect.print (plan_msg f r) ∈ main_effects args env) ∧
      (∀ f ∈ (get_file_list env.listing env.is_file).1.filter
          (fun f => !startsWithDot f),
        ∃ r, Effect.print (plan_msg f r ++ "\n") ∈ main_effects args env)) := by
  constructor
  · intro e he
    rcases main_effects_test_shapes args env h e he with ⟨s, rfl⟩ | ⟨f, rfl⟩ <;>
      exact ⟨rfl, rfl⟩
  · intro hd
    obtain ⟨dir, test, verbose, out⟩ := args
    subst h
    constructor
    · intro f hf
      refine ⟨env.md5 (pathJoin dir f) ++ splitext_ext f, ?_⟩
      simp only [main_effects, hd, Bool.not_true]
      simp only [Bool.false_eq_true, if_false]
      refine List.mem_append_left _ (List.mem_append_left _ (List.mem_append_left _
        (List.mem_append_left _ (List.mem_append_right _ ?_))))
      refine List.mem_flatMap.mpr ⟨f, hf, ?_⟩
      simp [plan_non_image]
    · intro f hf
      refine ⟨rename_value
        (process_image env.res f (env.image_env f) verbose true out).1
        (env.md5 (pathJoin dir f)) (splitext_ext f), ?_⟩
      simp only [main_effects, hd, Bool.not_true]
      simp only [Bool.false_eq_true, if_false]
      refine List.mem_append_left _ (List.mem_append_left _
        (List.mem_append_right _ ?_))
      refine List.mem_flatMap.mpr ⟨f, hf, ?_⟩
      simp [plan_image]

/-- Witness for C6 at a concrete dry run over one text file and one image
whose OCR fails. -/
theorem C6_dry_run_witness :
    (∀ e ∈ main_effects ⟨"d", true, false, none⟩
        ⟨true, true, ["notes.txt", "img.png"], fun _ => true, fun _ => "9e107d9d",
          fun _ => ⟨true, none⟩, trivialRes⟩,
      e.isRename = false ∧ e.isAppend = false) ∧
    ((true : Bool) = true →
      (∀ f ∈ (get_file_list ["notes.txt", "img.png"] (fun _ => true)).2.filter
          (fun f => !startsWithDot f),
        ∃ r, Effect.print (plan_msg f r) ∈ main_effects ⟨"d", true, false, none⟩
          ⟨true, true, ["notes.txt", "img.png"], fun _ => true, fun _ => "9e107d9d",
            fun _ => ⟨true, none⟩, trivialRes⟩) ∧
      (∀ f ∈ (get_file_list ["notes.txt", "img.png"] (fun _ => true)).1.filter
          (fun f => !startsWithDot f),
        ∃ r, Effect.print (plan_msg f r ++ "\n") ∈ main_effects ⟨"d", true, false, none⟩
          ⟨true, true, ["notes.txt", "img.png"], fun _ => true, fun _ => "9e107d9d",
            fun _ => ⟨true, none⟩, trivialRes⟩)) :=
  C6_dry_run ⟨"d", true, false, none⟩
    ⟨true, true, ["notes.txt", "img.png"], fun _ => true, fun _ => "9e107d9d",
      fun _ => ⟨true, none⟩, trivialRes⟩ rfl

end Claims
